import Mathlib

/-!
Shallow embedding of `portquota.py`: a single-file per-port traffic-quota
manager.  It keeps nftables match rules feeding one named counter per port
(Rule Synchronizer + Counter Backend Adapter), removes/adds ufw allow rules
when a port exceeds its quota (Port-Policy Adapter), records a status per
port each daemon cycle (Quota Monitor) and offers a curses console
(Console Controller).

Pure data is translated directly; external backends (nft, ufw) are modelled
as explicit state plus a command trace, with an oracle telling which
invocations return a non-zero exit code (the source never inspects those
codes except for the `nft list ...` existence queries, which are answered
from the modelled backend state).  Python floats (`limit_gb`) are modelled
as rationals; `int()` is truncation toward zero.
-/

namespace PortQuota

/-- `FAMILY = "inet"` (module constant). -/
def FAMILY : String := "inet"

/-- `TABLE = "traffic"` (module constant). -/
def TABLE : String := "traffic"

/-- `INGRESS = "ingress"` (module constant, also the ingress chain name). -/
def INGRESS : String := "ingress"

/-- `EGRESS = "egress"` (module constant, also the egress chain name). -/
def EGRESS : String := "egress"

/-- One `[[ports]]` entry of the TOML config, after the coercions the source
applies (`int(p["port"])`, `float(p["limit_gb"])`, `p.get("direction","both")`). -/
structure PortCfg where
  port : Nat
  limit_gb : Rat
  direction : String
deriving DecidableEq, Repr

/-- The configuration as the source reads it: `general.exclude_ifaces`
(default `["lo","docker0"]`), `general.protocols` (default `["tcp","udp"]`)
and the port list, with the dict-`get` defaults already resolved. -/
structure Config where
  exclude_ifaces : List String
  protocols : List String
  ports : List PortCfg
deriving DecidableEq, Repr

/-- `cname = f"port{port}_total"` — the counter name derived from a port. -/
def counter_name (port : Nat) : String := "port" ++ toString port ++ "_total"

/-- The match tuple of one nft rule as assembled by `rule_line` / `add_one`:
direction (chain), optional interface-exclusion field (`iifname`/`oifname`),
the excluded interface names, port side (`dport`/`sport`), protocol, port,
referenced counter and the diagnostic comment. -/
structure Rule where
  direction : String
  ifaceField : Option String
  excludeIfaces : List String
  portField : String
  proto : String
  port : Nat
  counterName : String
  comment : String
deriving DecidableEq, Repr

/-- `rule_line(exclude_ifaces, proto, direction, port, counter_name)`:
ingress rules exclude by `iifname` and match `dport`; anything else excludes
by `oifname` and matches `sport`; the interface part is omitted when the
exclusion list is empty.  The comment is added later by `add_one`. -/
def rule_line (exclude_ifaces : List String) (proto direction : String)
    (port : Nat) (cntr : String) : Rule :=
  { direction := direction
    ifaceField :=
      if exclude_ifaces = [] then none
      else some (if direction = INGRESS then "iifname" else "oifname")
    excludeIfaces := exclude_ifaces
    portField := if direction = INGRESS then "dport" else "sport"
    proto := proto
    port := port
    counterName := cntr
    comment := "" }

/-- `add_one(direction, proto, port, counter_name)` builds the rule text from
`rule_line` plus the comment `pq:{port}:{direction}:{proto}`. -/
def add_one_rule (exclude_ifaces : List String) (direction proto : String)
    (port : Nat) (cntr : String) : Rule :=
  { rule_line exclude_ifaces proto direction port cntr with
    comment := "pq:" ++ toString port ++ ":" ++ direction ++ ":" ++ proto }

/-- `dirs = [INGRESS, EGRESS] if direction == "both" else [direction]`. -/
def dirsOf (direction : String) : List String :=
  if direction = "both" then [INGRESS, EGRESS] else [direction]

/-- A mutating nft invocation handed to `nft -f -` (or `nft reset`). -/
inductive NftCmd where
  | addTable
  | addChain (name : String)
  | flushChain (name : String)
  | addCounter (name : String)
  | addRule (r : Rule)
  | resetCounter (name : String)
deriving DecidableEq, Repr

/-- The modelled nftables backend state: whether our table and two chains
exist, the rules held by each chain, and the named counters (name, bytes).
Counters are separate objects: flushing a chain leaves them untouched. -/
structure NftState where
  hasTable : Bool
  hasIngress : Bool
  hasEgress : Bool
  ingressRules : List Rule
  egressRules : List Rule
  counters : List (String × Nat)
deriving DecidableEq, Repr

/-- Effect of a successfully executed nft command on the backend state.
`addRule` appends to the chain named by the rule's direction (nft rejects a
rule for a chain that does not exist, leaving the state unchanged);
`addCounter` is create-if-absent; `flushChain` clears rules only. -/
def applyNft : NftCmd → NftState → NftState
  | .addTable, st => { st with hasTable := true }
  | .addChain n, st =>
      if n = INGRESS then { st with hasIngress := true }
      else if n = EGRESS then { st with hasEgress := true }
      else st
  | .flushChain n, st =>
      if n = INGRESS then
        if st.hasIngress then { st with ingressRules := [] } else st
      else if n = EGRESS then
        if st.hasEgress then { st with egressRules := [] } else st
      else st
  | .addCounter n, st =>
      if (st.counters.lookup n).isSome then st
      else { st with counters := st.counters ++ [(n, 0)] }
  | .addRule r, st =>
      if r.direction = INGRESS then
        if st.hasIngress then { st with ingressRules := st.ingressRules ++ [r] } else st
      else if r.direction = EGRESS then
        if st.hasEgress then { st with egressRules := st.egressRules ++ [r] } else st
      else st
  | .resetCounter n, st =>
      { st with counters := st.counters.map (fun kv => if kv.1 = n then (kv.1, 0) else kv) }

/-- `nft_f`: run one mutating command; `fails` is the oracle saying which
invocations exit non-zero (in which case the backend state is unchanged).
The returned Bool is the success flag — the source never inspects it. -/
def nft_f (fails : NftCmd → Bool) (c : NftCmd) (st : NftState) : NftState × Bool :=
  if fails c then (st, false) else (applyNft c st, true)

/-- The all-commands-succeed oracle. -/
def noFail : NftCmd → Bool := fun _ => false

/-- First statement of `ensure_infra()`: create the table when the
`nft list table` existence query (answered from the modelled state) fails. -/
def ensure_table (fails : NftCmd → Bool) (st : NftState) : NftState × List NftCmd :=
  if st.hasTable then (st, [])
  else ((nft_f fails .addTable st).1, [NftCmd.addTable])

/-- Second statement of `ensure_infra()`: create the ingress chain when the
`nft list chain` existence query fails. -/
def ensure_chain_ingress (fails : NftCmd → Bool) (st : NftState) : NftState × List NftCmd :=
  if st.hasIngress then (st, [])
  else ((nft_f fails (.addChain INGRESS) st).1, [NftCmd.addChain INGRESS])

/-- Third statement of `ensure_infra()`: create the egress chain when the
`nft list chain` existence query fails. -/
def ensure_chain_egress (fails : NftCmd → Bool) (st : NftState) : NftState × List NftCmd :=
  if st.hasEgress then (st, [])
  else ((nft_f fails (.addChain EGRESS) st).1, [NftCmd.addChain EGRESS])

/-- `ensure_infra()`: its three conditional creations in source order.
Returns the new state and the commands issued. -/
def ensure_infra (fails : NftCmd → Bool) (st : NftState) : NftState × List NftCmd :=
  let r1 := ensure_table fails st
  let r2 := ensure_chain_ingress fails r1.1
  let r3 := ensure_chain_egress fails r2.1
  (r3.1, r1.2 ++ r2.2 ++ r3.2)

/-- `ensure_counter(name)`: create-if-absent, never reset-if-present
(the `nft list counter` existence query is answered from the state). -/
def ensure_counter (fails : NftCmd → Bool) (name : String) (st : NftState) :
    NftState × List NftCmd :=
  if (st.counters.lookup name).isSome then (st, [])
  else ((nft_f fails (.addCounter name) st).1, [NftCmd.addCounter name])

/-- The inner double loop of `sync_rules`: `for d in dirs: for proto in
protocols_here: add_one(...)`, emitting one `add rule` per combination.
Each command is issued through `nft_f` and its success flag discarded. -/
def addPortRules (fails : NftCmd → Bool) (excl protos : List String)
    (p : PortCfg) (st : NftState) : NftState × List NftCmd :=
  (dirsOf p.direction).foldl
    (fun acc d =>
      protos.foldl
        (fun acc2 proto =>
          let c := NftCmd.addRule (add_one_rule excl d proto p.port (counter_name p.port))
          ((nft_f fails c acc2.1).1, acc2.2 ++ [c]))
        acc)
    (st, [])

/-- One iteration of `sync_rules`' per-port loop body: ensure the port's
counter, then emit its rules. -/
def sync_port_step (fails : NftCmd → Bool) (excl protos : List String)
    (acc2 : NftState × List NftCmd) (p : PortCfg) : NftState × List NftCmd :=
  let rA := ensure_counter fails (counter_name p.port) acc2.1
  let rB := addPortRules fails excl protos p rA.1
  (rB.1, acc2.2 ++ rA.2 ++ rB.2)

/-- The per-port loop of `sync_rules` (`for p in cfg.get("ports", []): ...`). -/
def sync_ports (fails : NftCmd → Bool) (excl protos : List String)
    (ports : List PortCfg) (acc : NftState × List NftCmd) : NftState × List NftCmd :=
  ports.foldl (sync_port_step fails excl protos) acc

/-- `sync_rules(cfg)`: ensure infrastructure, flush our two chains, then per
configured port ensure its counter and emit the per-(direction, protocol)
rules.  Every `nft_f` result is discarded; the function surfaces no
failure.  Returns the backend state and the full command trace. -/
def sync_rules (fails : NftCmd → Bool) (cfg : Config) (st : NftState) :
    NftState × List NftCmd :=
  let r1 := ensure_infra fails st
  let st2 := (nft_f fails (.flushChain INGRESS) r1.1).1
  let st3 := (nft_f fails (.flushChain EGRESS) st2).1
  let r4 := sync_ports fails cfg.exclude_ifaces cfg.protocols cfg.ports (st3, [])
  (r4.1, r1.2 ++ [NftCmd.flushChain INGRESS, NftCmd.flushChain EGRESS] ++ r4.2)

/-- The rules `sync_rules` generates for one port entry, in emission order. -/
def portRules (excl protos : List String) (p : PortCfg) : List Rule :=
  (dirsOf p.direction).flatMap
    (fun d => protos.map (fun proto => add_one_rule excl d proto p.port (counter_name p.port)))

/-- All rules `sync_rules` generates for a configuration, in emission order. -/
def allRules (cfg : Config) : List Rule :=
  cfg.ports.flatMap (portRules cfg.exclude_ifaces cfg.protocols)

/-- Counter map after one synchronization run: each port's counter is
appended with value 0 exactly when its name is not yet present. -/
def extendCounters (ports : List PortCfg) (cs : List (String × Nat)) :
    List (String × Nat) :=
  ports.foldl
    (fun acc p =>
      if (acc.lookup (counter_name p.port)).isSome then acc
      else acc ++ [(counter_name p.port, 0)])
    cs

/-- `nft_counter_bytes(name)`: returns 0 when the `nft -j list counter`
query exits non-zero; otherwise the `bytes` field of the first JSON object
carrying a `counter` key, or 0 when none does.  `objs` is the parsed
`nftables` array, each element `some b` when it holds a counter object with
byte value `b`. -/
def nft_counter_bytes (rc_ok : Bool) (objs : List (Option Nat)) : Nat :=
  if rc_ok then
    match objs.findSome? id with
    | some b => b
    | none => 0
  else 0

/-- Python `str.upper()` on the ASCII range (`Char.toUpper` upper-cases
`a`-`z` and fixes everything else; configured unit strings are ASCII). -/
def pyUpper (s : String) : String := String.mk (s.data.map Char.toUpper)

/-- `unit_size` as computed at line 579 of the daemon loop:
`1_000_000_000 if unit=="GB" else 1_073_741_824`, with
`unit = (g.get("unit","GB")).upper()`. -/
def loop_unit_size (u : String) : Nat :=
  if pyUpper u = "GB" then 1000000000 else 1073741824

/-- `unit_size` as computed at line 333 of `run_tui`, textually the same
expression as in the daemon loop. -/
def tui_unit_size (u : String) : Nat :=
  if pyUpper u = "GB" then 1000000000 else 1073741824

/-- Python `int()` on a rational: truncation toward zero. -/
def pyInt (q : Rat) : Int := if 0 ≤ q then ⌊q⌋ else -⌊-q⌋

/-- `limit_bytes = int(limit_gb * unit_size)` (daemon loop, line 603; the
console snapshot inlines the same expression at line 347). -/
def limit_bytes (limit_gb : Rat) (unit_size : Nat) : Int :=
  pyInt (limit_gb * (unit_size : Rat))

/-- The daemon loop's status for one port in one cycle (lines 603-612):
`exceeded = used_bytes >= limit_bytes`, recorded as `"blocked"` or `"open"`. -/
def loop_status (used_bytes : Nat) (limit_gb : Rat) (unit_size : Nat) : String :=
  if (used_bytes : Int) ≥ limit_bytes limit_gb unit_size then "blocked" else "open"

/-- The console snapshot's status for one row (line 347):
`"blocked" if b >= int(limit_gb*unit_size) else "open"`. -/
def snapshot_status (b : Nat) (limit_gb : Rat) (unit_size : Nat) : String :=
  if (b : Int) ≥ limit_bytes limit_gb unit_size then "blocked" else "open"

/-- The status the daemon records for a port at cycle `i`, as a function of
the byte value read that cycle: the `while True` loop recomputes
`exceeded` fresh each iteration and carries no per-port state between
iterations, so cycle `i`'s recorded status depends only on `reads i`. -/
def loop_status_at (limit_gb : Rat) (u : String) (reads : Nat → Nat) (i : Nat) : String :=
  loop_status (reads i) limit_gb (loop_unit_size u)

/-- Python's `\s` on the ASCII range, used by the status-line regexes. -/
def pyWhitespace (c : Char) : Bool :=
  c = ' ' || c = '\t' || c = '\n' || c = '\x0d' || c = '\x0b' || c = '\x0c'

/-- Digits of a matched `\d+` group to the number it denotes. -/
def digitsToNat (ds : List Char) : Nat :=
  ds.foldl (fun a c => a * 10 + (c.toNat - 48)) 0

/-- `re.match(r"\[\s*(\d+)\]\s+(.*)", line)`: anchored at the start,
a literal `[`, optional whitespace, at least one digit, `]`, at least one
whitespace character, and the remainder as the rule body.  (`\s` and `\d`
are disjoint, so the greedy quantifiers need no backtracking.) -/
def parseNumbered (line : String) : Option (Nat × String) :=
  match line.data with
  | '[' :: rest =>
    let rest1 := rest.dropWhile pyWhitespace
    let digits := rest1.takeWhile Char.isDigit
    if digits = [] then none
    else
      match rest1.dropWhile Char.isDigit with
      | ']' :: rest3 =>
        if rest3.takeWhile pyWhitespace = [] then none
        else some (digitsToNat digits, String.mk (rest3.dropWhile pyWhitespace))
      | _ => none
  | _ => none

/-- Python `sorted(l, reverse=True)` on distinct-or-equal naturals: the
descending sort.  (On `Nat` the value determines the element, so stability
is unobservable and insertion sort agrees with Python's stable sort.) -/
def sortDescending (l : List Nat) : List Nat :=
  l.insertionSort (fun a b => b ≤ a)

/-- Indices whose parsed body matches the deletion pattern, in the order
the `ufw status numbered` lines list them (`to_delete` in the source). -/
def matchedIndices (search : String → Bool) (statusLines : List String) : List Nat :=
  statusLines.filterMap
    (fun line =>
      match parseNumbered line with
      | none => none
      | some ib => if search ib.2 then some ib.1 else none)

/-- `ufw_delete_rules_matching(regex)`: scan the numbered status listing,
collect matching indices, and issue `ufw delete <idx>` for
`sorted(to_delete, reverse=True)` — the returned list is the sequence of
deleted indices in issue order. -/
def ufw_delete_rules_matching (search : String → Bool) (statusLines : List String) :
    List Nat :=
  sortDescending (matchedIndices search statusLines)

/-- A word character for the regex `\b` boundary: `[A-Za-z0-9_]`. -/
def isWordChar (c : Char) : Bool := c.isAlphanum || c = '_'

/-- Case-insensitive ASCII prefix test (`re.I`). -/
def prefixCI : List Char → List Char → Bool
  | [], _ => true
  | _ :: _, [] => false
  | a :: as, b :: bs => (a.toLower = b.toLower) && prefixCI as bs

/-- `\b` holds before the current position given the previous character. -/
def boundaryOk : Option Char → Bool
  | none => true
  | some c => !isWordChar c

/-- `\b` holds after a token given the remaining characters. -/
def afterOk : List Char → Bool
  | [] => true
  | c :: _ => !isWordChar c

/-- Search for the token `tok` with `\b` on both sides, case-insensitively,
anywhere in `s` (`prev` is the character just before `s`).  On success
returns the remainder after the match. -/
def searchTok (tok : List Char) : Option Char → List Char → Option (List Char)
  | prev, [] =>
      if boundaryOk prev && prefixCI tok [] then some [] else none
  | prev, c :: rest =>
      if boundaryOk prev && prefixCI tok (c :: rest) && afterOk ((c :: rest).drop tok.length) then
        some ((c :: rest).drop tok.length)
      else searchTok tok (some c) rest

/-- `re.search(rf"\b{port}/tcp\b.*\b{action}\b", line, re.I)`: the port
token with word boundaries, then (after anything) the action token with
word boundaries; `.*` is existentially irrelevant, so greedy matching
reduces to two sequential boundary-respecting searches. -/
def portActionMatch (port : Nat) (action : String) (line : String) : Bool :=
  match searchTok (toString port ++ "/tcp").data none line.data with
  | none => false
  | some rest => (searchTok action.data (some 'p') rest).isSome

/-- `is_port_allowed_tcp(port)`: some status line matches
`\b{port}/tcp\b.*\bALLOW\b` case-insensitively. -/
def is_port_allowed_tcp (statusLines : List String) (port : Nat) : Bool :=
  statusLines.any (portActionMatch port "ALLOW")

/-- `is_port_denied_tcp(port)`: some status line matches
`\b{port}/tcp\b.*\bDENY\b` case-insensitively. -/
def is_port_denied_tcp (statusLines : List String) (port : Nat) : Bool :=
  statusLines.any (portActionMatch port "DENY")

/-- A ufw invocation issued by the Port-Policy Adapter. -/
inductive UfwCmd where
  | deleteAllow (spec : String)
  | allowAdd (spec : String)
  | deleteIndex (idx : Nat)
deriving DecidableEq, Repr

/-- `block_port_tcp_by_removing_allow(port)`:
the single command `ufw delete allow {port}/tcp`, result ignored. -/
def block_port_tcp_by_removing_allow_cmds (port : Nat) : List UfwCmd :=
  [UfwCmd.deleteAllow (toString port ++ "/tcp")]

/-- `ensure_port_allowed_tcp(port)`: unconditionally runs
`ufw allow {port}/tcp` (no existence check; the docstring relies on the
backend to cope with an already-present rule). -/
def ensure_port_allowed_tcp_cmds (port : Nat) : List UfwCmd :=
  [UfwCmd.allowAdd (toString port ++ "/tcp")]

/-- `allow_port_tcp(port)`: delete every DENY rule for the port (descending
indices over the numbered listing), then add an ALLOW only if
`is_port_allowed_tcp` is false on the plain listing. -/
def allow_port_tcp_cmds (numberedLines plainLines : List String) (port : Nat) :
    List UfwCmd :=
  (ufw_delete_rules_matching (portActionMatch port "DENY") numberedLines).map UfwCmd.deleteIndex
    ++ (if is_port_allowed_tcp plainLines port then []
        else [UfwCmd.allowAdd (toString port ++ "/tcp")])

/-- One in-memory console entry `(port, limit_gb, direction, cname)`. -/
structure Item where
  port : Nat
  limit_gb : Rat
  direction : String
  cname : String
deriving DecidableEq, Repr

/-- The ufw commands one daemon cycle issues (lines 601-606): for each item
read its counter and, when `used_bytes >= limit_bytes`, call
`block_port_tcp_by_removing_allow`.  `protocols` is in scope in `loop` but,
per the source comment, used only for counting — blocking touches tcp only,
so the emission ignores it. -/
def loop_cycle_ufw_cmds (protocols : List String) (unit_size : Nat)
    (read : String → Nat) (items : List Item) : List UfwCmd :=
  let _ := protocols
  items.flatMap
    (fun it =>
      if (read it.cname : Int) ≥ limit_bytes it.limit_gb unit_size then
        block_port_tcp_by_removing_allow_cmds it.port
      else [])

/-- The console's mutable selection state: the item list and
`state["selected"]` (an unbounded Python int, hence `Int`). -/
structure ConsoleState where
  items : List Item
  selected : Int
deriving DecidableEq, Repr

/-- The console key operations that move or must re-clamp the selection. -/
inductive ConsoleKey where
  | up
  | down
  | del
  | save
  | add (port : Nat) (lim : Rat) (dir : String)
deriving DecidableEq, Repr

/-- Python `list.pop(i)` with a possibly negative index (negative counts
from the end).  Out-of-range indices are modelled as a no-op; the source
would raise there, and no claim depends on that path. -/
def pyPop {α : Type} (l : List α) (i : Int) : List α :=
  if 0 ≤ i then l.eraseIdx i.toNat else l.eraseIdx (l.length - (-i).toNat)

/-- One console key handled by `run_loop` (and `save_config`'s re-clamp):
Up is `max(0, selected-1)`; Down is `min(len(items)-1, selected+1)`;
D pops the selected index then sets `max(0, min(idx, len(items)-1))`;
S re-clamps `selected` to `max(0, len(items)-1)` when it is `>= len(items)`
(the rebuilt item list has the same entries, so it is left as is);
A appends the new entry and selects `len(items)-1`. -/
def consoleStep : ConsoleKey → ConsoleState → ConsoleState
  | .up, s => { s with selected := max 0 (s.selected - 1) }
  | .down, s => { s with selected := min ((s.items.length : Int) - 1) (s.selected + 1) }
  | .del, s =>
      if s.items = [] then s
      else
        let items2 := pyPop s.items s.selected
        { items := items2
          selected := max 0 (min s.selected ((items2.length : Int) - 1)) }
  | .save, s =>
      if s.selected ≥ (s.items.length : Int) then
        { s with selected := max 0 ((s.items.length : Int) - 1) }
      else s
  | .add p lim dir, s =>
      { items := s.items ++ [⟨p, lim, dir, counter_name p⟩]
        selected := (s.items.length : Int) }

/-- The selection invariant claimed for the console:
`0 <= selected <= len(items)-1` on a non-empty list, `selected == 0` on an
empty one. -/
def consoleInv (s : ConsoleState) : Prop :=
  (s.items ≠ [] → 0 ≤ s.selected ∧ s.selected ≤ (s.items.length : Int) - 1)
    ∧ (s.items = [] → s.selected = 0)

/-! ### Helper lemmas and shared concrete inputs -/

lemma limit_bytes_nat (n u : Nat) : limit_bytes (n : Rat) u = ((n * u : Nat) : Int) := by
  unfold limit_bytes pyInt
  rw [if_pos (by positivity),
    show ((n : Rat) * (u : Rat)) = (((n * u : Nat)) : Rat) by push_cast; ring]
  exact Int.floor_natCast _

lemma limit_bytes_one (u : Nat) : limit_bytes 1 u = (u : Int) := by
  have h := limit_bytes_nat 1 u
  rw [Nat.cast_one] at h
  rw [h, one_mul]

/-- The end-to-end example configuration of the spec: one port `9000`,
limit 1 unit, direction `both`, protocols tcp and udp. -/
def cfg9000 : Config := ⟨["lo", "docker0"], ["tcp", "udp"], [⟨9000, 1, "both"⟩]⟩

/-- A fresh nft backend: no table, no chains, no counters. -/
def nftState0 : NftState := ⟨false, false, false, [], [], []⟩

/-! ### C10 — unit multiplier resolution -/

/-- C10: for every configured unit string `u`, the byte multiplier is
`10^9` exactly when `u` upper-cased equals `"GB"` and `2^30` in every other
case (so an unrecognized unit such as `"MB"` silently resolves to the GiB
multiplier), and the daemon loop and the console compute it identically. -/
theorem C10_unit_multiplier (u : String) :
    loop_unit_size u = tui_unit_size u
      ∧ (pyUpper u = "GB" → loop_unit_size u = 10 ^ 9)
      ∧ (pyUpper u ≠ "GB" → loop_unit_size u = 2 ^ 30) := by
  refine ⟨rfl, fun h => ?_, fun h => ?_⟩
  · rw [loop_unit_size, if_pos h]; norm_num
  · rw [loop_unit_size, if_neg h]; norm_num

/-- C10 witness: the unrecognized unit `"MB"` resolves to `2^30 = 1073741824`. -/
theorem C10_witness :
    pyUpper "MB" ≠ "GB" ∧ loop_unit_size "MB" = 2 ^ 30 ∧ (2 : Nat) ^ 30 = 1073741824 :=
  ⟨by decide, (C10_unit_multiplier "MB").2.2 (by decide), by norm_num⟩

/-! ### C3 — inclusive quota threshold -/

/-- C3: for every counter value, limit and unit size, the computed status is
`"blocked"` exactly when `usedBytes >= limitBytes` (so equality classifies
as blocked), identically in the daemon loop and the console snapshot. -/
theorem C3_threshold_inclusive (used : Nat) (lg : Rat) (us : Nat) :
    (loop_status used lg us = "blocked" ↔ (used : Int) ≥ limit_bytes lg us)
      ∧ (snapshot_status used lg us = "blocked" ↔ (used : Int) ≥ limit_bytes lg us)
      ∧ ((used : Int) = limit_bytes lg us →
          loop_status used lg us = "blocked" ∧ snapshot_status used lg us = "blocked")
      ∧ loop_status used lg us = snapshot_status used lg us := by
  by_cases h : (used : Int) ≥ limit_bytes lg us
  · simp [loop_status, snapshot_status, h]
  · simp [loop_status, snapshot_status, h]
    omega

/-- C3 witness: with limit 5 units of size 1 byte, a counter value of
exactly 5 bytes is classified blocked by both the loop and the snapshot. -/
theorem C3_witness :
    (5 : Int) = limit_bytes 5 1
      ∧ loop_status 5 5 1 = "blocked" ∧ snapshot_status 5 5 1 = "blocked" := by
  have h5 : limit_bytes 5 1 = (5 : Int) := by
    have h := limit_bytes_nat 5 1
    norm_num at h
    exact h
  exact ⟨h5.symm, (C3_threshold_inclusive 5 5 1).2.2.1 h5.symm⟩

/-! ### C2 — monotonicity of the recorded status -/

/-- The reads of the counterexample run: cycle 0 reads a full
`1_000_000_000` bytes; every later cycle's `nft -j list counter` query
fails, so `nft_counter_bytes` degrades to 0. -/
def readsFail : Nat → Nat := fun i => if i = 0 then 1000000000 else nft_counter_bytes false []

/-- C2 counterexample: with unit `"GB"` and limit `1`, cycle 0 records
`"blocked"`, yet cycle 1 — whose counter read fails and degrades to 0 —
records `"open"` although no reset occurred (the daemon loop has no reset
path at all): the recorded status is recomputed statelessly each cycle. -/
theorem C2_counterexample :
    loop_status_at 1 "GB" readsFail 0 = "blocked"
      ∧ readsFail 1 = nft_counter_bytes false []
      ∧ nft_counter_bytes false [] = 0
      ∧ loop_status_at 1 "GB" readsFail 1 = "open" := by
  have hl : limit_bytes 1 (loop_unit_size "GB") = (1000000000 : Int) := by
    rw [limit_bytes_one]
    norm_num [loop_unit_size]
    decide
  refine ⟨?_, rfl, rfl, ?_⟩
  · rw [loop_status_at, loop_status, if_pos]
    rw [hl]
    norm_num [readsFail]
  · rw [loop_status_at, loop_status, if_neg]
    rw [hl]
    norm_num [readsFail, nft_counter_bytes]

/-- C2 amended: the daemon records `"blocked"` for a port in cycle `j`
whenever it recorded `"blocked"` in an earlier cycle `i` and the value read
in cycle `j` is at least the value read in cycle `i`; monotone blocking
therefore holds exactly when the sequence of read counter values does not
decrease (a failed read degrades to 0 and records `"open"`). -/
theorem C2_amended_monotone (lg : Rat) (u : String) (reads : Nat → Nat) (i j : Nat)
    (_hij : i ≤ j) (hmono : reads i ≤ reads j)
    (hb : loop_status_at lg u reads i = "blocked") :
    loop_status_at lg u reads j = "blocked" := by
  unfold loop_status_at loop_status at hb ⊢
  by_cases hi : (reads i : Int) ≥ limit_bytes lg (loop_unit_size u)
  · have hj : (reads j : Int) ≥ limit_bytes lg (loop_unit_size u) := by
      have : (reads i : Int) ≤ (reads j : Int) := by exact_mod_cast hmono
      omega
    rw [if_pos hj]
  · rw [if_neg hi] at hb
    exact absurd hb (by decide)

/-- C2 amended witness: constant reads at the limit keep the recorded
status blocked from cycle 0 to cycle 1. -/
theorem C2_amended_witness :
    loop_status_at 1 "GB" (fun _ => 1000000000) 1 = "blocked" := by
  have hg : loop_unit_size "GB" = 1000000000 := by
    rw [loop_unit_size, if_pos (show pyUpper "GB" = "GB" by decide)]
  have h0 : loop_status_at 1 "GB" (fun _ => 1000000000) 0 = "blocked" := by
    rw [loop_status_at, loop_status, if_pos]
    rw [hg, limit_bytes_one]
  exact C2_amended_monotone 1 "GB" (fun _ => 1000000000) 0 1 (by norm_num) (le_refl _) h0

/-! ### C6 — deletion in descending index order -/

/-- C6: `ufw_delete_rules_matching` issues exactly the matched indices
(a permutation of them), in descending order; in particular a listing whose
matching lines carry indices `[2, 5, 7]` is deleted in the order `7, 5, 2`. -/
theorem C6_delete_descending (search : String → Bool) (lines : List String) :
    List.Perm (ufw_delete_rules_matching search lines) (matchedIndices search lines)
      ∧ List.Sorted (fun a b => b ≤ a) (ufw_delete_rules_matching search lines)
      ∧ (matchedIndices search lines = [2, 5, 7] →
          ufw_delete_rules_matching search lines = [7, 5, 2]) := by
  refine ⟨List.perm_insertionSort _ _, ?_, fun h => ?_⟩
  · haveI : IsTotal Nat (fun a b => b ≤ a) := ⟨fun a b => le_total b a⟩
    haveI : IsTrans Nat (fun a b => b ≤ a) := ⟨fun a b c h1 h2 => le_trans h2 h1⟩
    exact List.sorted_insertionSort _ _
  · rw [ufw_delete_rules_matching, h]
    decide

/-- A concrete `ufw status numbered` listing: three ALLOW lines for port
9000 at indices 2, 5 and 7, one non-rule line, one non-matching rule. -/
def ufwLinesW : List String :=
  ["[ 2] 9000/tcp ALLOW IN Anywhere",
   "junk line",
   "[ 5] 9000/tcp ALLOW IN Anywhere (v6)",
   "[ 7] 9000/tcp ALLOW OUT Anywhere",
   "[ 9] 8000/udp DENY IN Anywhere"]

/-- C6 witness: on the concrete listing the ALLOW pattern for port 9000
matches indices `[2, 5, 7]` and the deletions are issued as `7, 5, 2`. -/
theorem C6_witness :
    matchedIndices (portActionMatch 9000 "ALLOW") ufwLinesW = [2, 5, 7]
      ∧ ufw_delete_rules_matching (portActionMatch 9000 "ALLOW") ufwLinesW = [7, 5, 2] :=
  ⟨by decide, (C6_delete_descending (portActionMatch 9000 "ALLOW") ufwLinesW).2.2 (by decide)⟩

/-! ### C7 — allow is check-before-add only on the fine-grained path -/

/-- Recognizes the `ufw allow ...` command. -/
def isAllowAdd : UfwCmd → Bool
  | .allowAdd _ => true
  | _ => false

/-- C7 counterexample: the claim — an allow rule is inserted only if none
exists, including on the console reset path — is false: the console reset
path calls `ensure_port_allowed_tcp`, which issues `ufw allow {port}/tcp`
unconditionally, here against a status listing that already shows
`9000/tcp ALLOW`. -/
theorem C7_counterexample :
    ¬ (∀ (plainLines : List String) (port : Nat),
        is_port_allowed_tcp plainLines port = true →
        (ensure_port_allowed_tcp_cmds port).all (fun c => !isAllowAdd c) = true) := by
  intro h
  exact absurd (h ["9000/tcp ALLOW Anywhere"] 9000 (by decide)) (by decide)

/-- C7 as amended: `allow_port_tcp` (the fine-grained path) is a checked
ensure-allow — it adds an allow rule only when the status listing shows
none, after first deleting the opposing DENY rules — whereas the console
reset path's `ensure_port_allowed_tcp` issues the single `ufw allow`
command unconditionally, delegating duplicate avoidance to the backend. -/
theorem C7_amended (numberedLines plainLines : List String) (port : Nat) :
    (is_port_allowed_tcp plainLines port = true →
      (allow_port_tcp_cmds numberedLines plainLines port).all (fun c => !isAllowAdd c) = true)
      ∧ (is_port_allowed_tcp plainLines port = false →
        UfwCmd.allowAdd (toString port ++ "/tcp") ∈
          allow_port_tcp_cmds numberedLines plainLines port)
      ∧ ensure_port_allowed_tcp_cmds port = [UfwCmd.allowAdd (toString port ++ "/tcp")] := by
  refine ⟨fun h => ?_, fun h => ?_, rfl⟩
  · rw [allow_port_tcp_cmds, h]
    simp only [if_pos, List.append_nil, List.all_eq_true]
    intro c hc
    obtain ⟨i, _, rfl⟩ := List.mem_map.mp hc
    rfl
  · rw [allow_port_tcp_cmds, h]
    simp

/-- C7 amended witness: against an empty status listing port 9000 has no
allow rule and `allow_port_tcp` does emit the allow command. -/
theorem C7_amended_witness :
    is_port_allowed_tcp [] 9000 = false
      ∧ UfwCmd.allowAdd (toString 9000 ++ "/tcp") ∈ allow_port_tcp_cmds [] [] 9000 :=
  ⟨by decide, (C7_amended [] [] 9000).2.1 (by decide)⟩

/-! ### C8 — console selection re-clamping -/

/-- C8 counterexample: the invariant — selection within bounds, and 0 on an
empty list — holds before, but pressing Down on an empty port list executes
`selected = min(len(items)-1, selected+1) = min(-1, 1) = -1`, violating it. -/
theorem C8_counterexample :
    consoleInv ⟨[], 0⟩
      ∧ (consoleStep ConsoleKey.down ⟨[], 0⟩).selected = -1
      ∧ ¬ consoleInv (consoleStep ConsoleKey.down ⟨[], 0⟩) := by
  refine ⟨⟨fun h => absurd rfl h, fun _ => rfl⟩, by decide, fun hinv => ?_⟩
  exact absurd (hinv.2 rfl) (by decide)

/-- C8 as amended: every console key operation other than Down-on-empty
re-establishes the selection invariant: after Up, Down (on a non-empty
list), Delete, Save and Add, `0 <= selected <= len(items)-1` holds when the
list is non-empty and `selected = 0` when it is empty.  Down on an empty
list is the one exception (it sets `selected` to `-1`). -/
theorem C8_amended (s : ConsoleState) (k : ConsoleKey) (hinv : consoleInv s)
    (hdown : k = ConsoleKey.down → s.items ≠ []) :
    consoleInv (consoleStep k s) := by
  obtain ⟨hne, hemp⟩ := hinv
  cases k with
  | up =>
    by_cases hitems : s.items = []
    · have h0 := hemp hitems
      refine ⟨fun h2 => absurd hitems h2, fun _ => ?_⟩
      simp [consoleStep, h0]
    · obtain ⟨h1, h2⟩ := hne hitems
      have hlen : 1 ≤ s.items.length := List.length_pos_of_ne_nil hitems
      refine ⟨fun _ => ?_, fun h3 => absurd h3 hitems⟩
      constructor
      · simp [consoleStep]
      · simp only [consoleStep, max_def]
        split_ifs <;> omega
  | down =>
    have hitems := hdown rfl
    obtain ⟨h1, h2⟩ := hne hitems
    have hlen : 1 ≤ s.items.length := List.length_pos_of_ne_nil hitems
    refine ⟨fun _ => ?_, fun h3 => absurd h3 hitems⟩
    simp only [consoleStep, min_def]
    constructor <;> split_ifs <;> omega
  | del =>
    by_cases hitems : s.items = []
    · simp only [consoleStep, if_pos hitems]
      exact ⟨fun h2 => absurd hitems h2, fun _ => hemp hitems⟩
    · obtain ⟨h1, h2⟩ := hne hitems
      have hlen : 1 ≤ s.items.length := List.length_pos_of_ne_nil hitems
      have hidx : s.selected.toNat < s.items.length := by omega
      have hpop : (pyPop s.items s.selected).length = s.items.length - 1 := by
        rw [pyPop, if_pos h1, List.length_eraseIdx]
        simp [hidx]
      simp only [consoleStep, if_neg hitems]
      constructor
      · intro h3
        have hlen2 : 1 ≤ (pyPop s.items s.selected).length :=
          List.length_pos_of_ne_nil h3
        rw [hpop] at hlen2
        simp only [hpop, max_def, min_def]
        split_ifs <;> constructor <;> omega
      · intro h3
        have hlen2 : (pyPop s.items s.selected).length = 0 := by
          rw [show pyPop s.items s.selected = [] from h3]
          rfl
        rw [hpop] at hlen2
        simp only [hpop, max_def, min_def]
        split_ifs <;> omega
  | save =>
    by_cases hitems : s.items = []
    · have h0 := hemp hitems
      have hlen : s.items.length = 0 := by rw [hitems]; rfl
      simp only [consoleStep]
      rw [if_pos (by omega)]
      exact ⟨fun h2 => absurd hitems h2, fun _ => by simp [max_def]; omega⟩
    · obtain ⟨h1, h2⟩ := hne hitems
      have hlen : 1 ≤ s.items.length := List.length_pos_of_ne_nil hitems
      simp only [consoleStep]
      rw [if_neg (by omega)]
      exact ⟨fun _ => ⟨h1, h2⟩, fun h3 => absurd h3 hitems⟩
  | add p lim dir =>
    have hlen : (s.items ++ [(⟨p, lim, dir, counter_name p⟩ : Item)]).length
        = s.items.length + 1 := by
      rw [List.length_append]
      rfl
    constructor
    · intro _
      simp only [consoleStep, hlen]
      constructor
      · exact Int.ofNat_nonneg _
      · omega
    · intro h3
      have h4 : (s.items ++ [(⟨p, lim, dir, counter_name p⟩ : Item)]).length = 0 := by
        rw [show s.items ++ [(⟨p, lim, dir, counter_name p⟩ : Item)] = [] from h3]
        rfl
      omega

/-- C8 amended witness: Down on a one-element list keeps the invariant. -/
theorem C8_amended_witness :
    consoleInv (consoleStep ConsoleKey.down ⟨[⟨9000, 1, "both", "port9000_total"⟩], 0⟩) :=
  C8_amended ⟨[⟨9000, 1, "both", "port9000_total"⟩], 0⟩ ConsoleKey.down
    ⟨fun _ => ⟨by decide, by decide⟩, fun h => absurd h (List.cons_ne_nil _ _)⟩
    (fun _ => List.cons_ne_nil _ _)

/-! ### C9 — block/allow touch only tcp policy rules -/

lemma flatMap_ite_singleton {α β : Type} (q : α → Prop) [DecidablePred q]
    (f : α → β) (l : List α) :
    (l.flatMap fun a => if q a then [f a] else []) =
      (l.filter (fun a => decide (q a))).map f := by
  induction l with
  | nil => rfl
  | cons a l ih =>
    by_cases h : q a <;> simp [h, ih]

/-- C9: for every protocol configuration (even when udp is counted), the
daemon cycle's policy-backend emissions are exactly one
`ufw delete allow {port}/tcp` per exceeded port — every emitted command is
a tcp delete-allow for some configured item — and the console reset path
emits exactly `ufw allow {port}/tcp`; no udp policy rule is ever added or
removed by these operations. -/
theorem C9_tcp_only (protocols : List String) (unit_size : Nat)
    (read : String → Nat) (items : List Item) :
    (loop_cycle_ufw_cmds protocols unit_size read items =
      (items.filter
        (fun it => decide ((read it.cname : Int) ≥ limit_bytes it.limit_gb unit_size))).map
        (fun it => UfwCmd.deleteAllow (toString it.port ++ "/tcp")))
      ∧ (∀ c ∈ loop_cycle_ufw_cmds protocols unit_size read items,
          ∃ it ∈ items, c = UfwCmd.deleteAllow (toString it.port ++ "/tcp"))
      ∧ (∀ port, ensure_port_allowed_tcp_cmds port =
          [UfwCmd.allowAdd (toString port ++ "/tcp")]) := by
  have heq : loop_cycle_ufw_cmds protocols unit_size read items =
      (items.filter
        (fun it => decide ((read it.cname : Int) ≥ limit_bytes it.limit_gb unit_size))).map
        (fun it => UfwCmd.deleteAllow (toString it.port ++ "/tcp")) := by
    rw [loop_cycle_ufw_cmds]
    exact flatMap_ite_singleton _ _ items
  refine ⟨heq, fun c hc => ?_, fun _ => rfl⟩
  rw [heq] at hc
  obtain ⟨it, hit, rfl⟩ := List.mem_map.mp hc
  exact ⟨it, List.mem_of_mem_filter hit, rfl⟩

/-- The single item of the C9 witness cycle. -/
def itemsW : List Item := [⟨9000, 1, "both", "port9000_total"⟩]

/-- C9 witness: with unit size 10^9 and a read of exactly 10^9 bytes, the
cycle emits the tcp delete-allow for port 9000, and it is of the shape the
theorem asserts for every emitted command. -/
theorem C9_witness :
    UfwCmd.deleteAllow (toString 9000 ++ "/tcp") ∈
        loop_cycle_ufw_cmds ["tcp", "udp"] 1000000000 (fun _ => 1000000000) itemsW
      ∧ ∃ it ∈ itemsW,
          UfwCmd.deleteAllow (toString 9000 ++ "/tcp") =
            UfwCmd.deleteAllow (toString it.port ++ "/tcp") := by
  have h := C9_tcp_only ["tcp", "udp"] 1000000000 (fun _ => 1000000000) itemsW
  have hmem : UfwCmd.deleteAllow (toString 9000 ++ "/tcp") ∈
      loop_cycle_ufw_cmds ["tcp", "udp"] 1000000000 (fun _ => 1000000000) itemsW := by
    rw [h.1]
    have hcond : limit_bytes 1 1000000000 ≤ (1000000000 : Int) := by
      rw [limit_bytes_one]
      norm_num
    simp [itemsW, List.filter, decide_eq_true hcond]
  exact ⟨hmem, h.2.1 _ hmem⟩

/-! ### Machinery for the Rule Synchronizer claims (C1, C4, C5) -/

/-- Recognizes an `add rule` command in a trace. -/
def isAddRule : NftCmd → Bool
  | .addRule _ => true
  | _ => false

/-- Sequential emission of a list of rules through `nft_f`, results
discarded: the normal form of `addPortRules`' nested loops. -/
def add_rules_seq (fails : NftCmd → Bool) (rs : List Rule)
    (acc : NftState × List NftCmd) : NftState × List NftCmd :=
  rs.foldl
    (fun a r => ((nft_f fails (.addRule r) a.1).1, a.2 ++ [NftCmd.addRule r]))
    acc

lemma add_rules_seq_append (fails : NftCmd → Bool) (l1 l2 : List Rule)
    (acc : NftState × List NftCmd) :
    add_rules_seq fails (l1 ++ l2) acc = add_rules_seq fails l2 (add_rules_seq fails l1 acc) := by
  unfold add_rules_seq
  rw [List.foldl_append]

lemma addPortRules_eq (fails : NftCmd → Bool) (excl protos : List String)
    (p : PortCfg) (st : NftState) :
    addPortRules fails excl protos p st =
      add_rules_seq fails (portRules excl protos p) (st, []) := by
  rw [addPortRules, portRules]
  generalize dirsOf p.direction = ds
  generalize hacc : ((st, []) : NftState × List NftCmd) = acc
  clear hacc
  induction ds generalizing acc with
  | nil => rfl
  | cons d ds ih =>
    rw [List.foldl_cons, List.flatMap_cons, add_rules_seq_append, ih]
    congr 1
    generalize hacc2 : acc = acc2
    clear hacc2 ih
    induction protos generalizing acc2 with
    | nil => rfl
    | cons proto protos ih2 =>
      rw [List.foldl_cons, List.map_cons]
      rw [show add_rules_seq fails
            (add_one_rule excl d proto p.port (counter_name p.port) ::
              protos.map (fun pr => add_one_rule excl d pr p.port (counter_name p.port))) acc2
          = add_rules_seq fails
              (protos.map (fun pr => add_one_rule excl d pr p.port (counter_name p.port)))
              ((nft_f fails
                (.addRule (add_one_rule excl d proto p.port (counter_name p.port))) acc2.1).1,
                acc2.2 ++ [NftCmd.addRule (add_one_rule excl d proto p.port (counter_name p.port))])
        from rfl]
      exact ih2 _

lemma add_rules_seq_trace (fails : NftCmd → Bool) (rs : List Rule)
    (st : NftState) (t : List NftCmd) :
    (add_rules_seq fails rs (st, t)).2 = t ++ rs.map NftCmd.addRule := by
  induction rs generalizing st t with
  | nil => simp [add_rules_seq]
  | cons r rs ih =>
    rw [add_rules_seq, List.foldl_cons]
    rw [show (rs.foldl
        (fun a r2 => ((nft_f fails (.addRule r2) a.1).1, a.2 ++ [NftCmd.addRule r2]))
        ((nft_f fails (.addRule r) st).1, t ++ [NftCmd.addRule r]))
      = add_rules_seq fails rs ((nft_f fails (.addRule r) st).1, t ++ [NftCmd.addRule r])
      from rfl]
    rw [ih]
    simp

lemma add_rules_seq_noFail_state (rs : List Rule) (ri re : List Rule)
    (cs : List (String × Nat)) (t : List NftCmd) :
    (add_rules_seq noFail rs (⟨true, true, true, ri, re, cs⟩, t)).1 =
      ⟨true, true, true,
        ri ++ rs.filter (fun r => r.direction == INGRESS),
        re ++ rs.filter (fun r => r.direction == EGRESS),
        cs⟩ := by
  induction rs generalizing ri re t with
  | nil => simp [add_rules_seq]
  | cons r rs ih =>
    rw [add_rules_seq, List.foldl_cons]
    have hstep : ∀ (st2 : NftState) (t2 : List NftCmd),
        (rs.foldl
          (fun a r2 => ((nft_f noFail (.addRule r2) a.1).1, a.2 ++ [NftCmd.addRule r2]))
          (st2, t2))
        = add_rules_seq noFail rs (st2, t2) := fun _ _ => rfl
    by_cases h1 : r.direction = "ingress"
    · have happ : (nft_f noFail (.addRule r) (⟨true, true, true, ri, re, cs⟩ : NftState)).1
          = (⟨true, true, true, ri ++ [r], re, cs⟩ : NftState) := by
        simp [nft_f, noFail, applyNft, INGRESS, EGRESS, h1]
      rw [happ, hstep, ih]
      simp [List.filter_cons, INGRESS, EGRESS, h1]
    · by_cases h2 : r.direction = "egress"
      · have happ : (nft_f noFail (.addRule r) (⟨true, true, true, ri, re, cs⟩ : NftState)).1
            = (⟨true, true, true, ri, re ++ [r], cs⟩ : NftState) := by
          simp [nft_f, noFail, applyNft, INGRESS, EGRESS, h1, h2]
        rw [happ, hstep, ih]
        simp [List.filter_cons, INGRESS, EGRESS, h1, h2]
      · have happ : (nft_f noFail (.addRule r) (⟨true, true, true, ri, re, cs⟩ : NftState)).1
            = (⟨true, true, true, ri, re, cs⟩ : NftState) := by
          simp [nft_f, noFail, applyNft, INGRESS, EGRESS, h1, h2]
        rw [happ, hstep, ih]
        simp [List.filter_cons, INGRESS, EGRESS, h1, h2]

lemma ensure_counter_noFail_state (n : String) (ht hi he : Bool) (ri re : List Rule)
    (cs : List (String × Nat)) :
    (ensure_counter noFail n ⟨ht, hi, he, ri, re, cs⟩).1 =
      ⟨ht, hi, he, ri, re,
        if (cs.lookup n).isSome then cs else cs ++ [(n, 0)]⟩ := by
  by_cases h : (cs.lookup n).isSome <;>
    simp [ensure_counter, nft_f, noFail, applyNft, h]

lemma ensure_counter_trace_filter (fails : NftCmd → Bool) (n : String) (st : NftState) :
    ((ensure_counter fails n st).2).filter isAddRule = [] := by
  rw [ensure_counter]
  split_ifs <;> rfl

lemma ensure_infra_noFail_state (st : NftState) :
    (ensure_infra noFail st).1 =
      ⟨true, true, true, st.ingressRules, st.egressRules, st.counters⟩ := by
  rcases st with ⟨ht, hi, he, ri, re, cs⟩
  cases ht <;> cases hi <;> cases he <;> rfl

lemma ensure_infra_trace_filter (fails : NftCmd → Bool) (st : NftState) :
    ((ensure_infra fails st).2).filter isAddRule = [] := by
  rw [ensure_infra]
  have h1 : ((ensure_table fails st).2).filter isAddRule = [] := by
    rw [ensure_table]; split_ifs <;> rfl
  have h2 : ∀ s2, ((ensure_chain_ingress fails s2).2).filter isAddRule = [] := by
    intro s2; rw [ensure_chain_ingress]; split_ifs <;> rfl
  have h3 : ∀ s3, ((ensure_chain_egress fails s3).2).filter isAddRule = [] := by
    intro s3; rw [ensure_chain_egress]; split_ifs <;> rfl
  simp [List.filter_append, h1, h2, h3]

lemma lookup_isSome_iff (l : List (String × Nat)) (n : String) :
    (List.lookup n l).isSome ↔ n ∈ l.map Prod.fst := by
  induction l with
  | nil => simp
  | cons kv l ih =>
    obtain ⟨k, v⟩ := kv
    by_cases h : n = k
    · simp [List.lookup, h]
    · have hb : (n == k) = false := beq_eq_false_iff_ne.mpr h
      simp [List.lookup, hb, h, ih]

lemma sync_port_step_noFail_fst (excl protos : List String) (p : PortCfg)
    (ri re : List Rule) (cs : List (String × Nat)) (t : List NftCmd) :
    (sync_port_step noFail excl protos (⟨true, true, true, ri, re, cs⟩, t) p).1 =
      ⟨true, true, true,
        ri ++ (portRules excl protos p).filter (fun r => r.direction == INGRESS),
        re ++ (portRules excl protos p).filter (fun r => r.direction == EGRESS),
        if (cs.lookup (counter_name p.port)).isSome then cs
        else cs ++ [(counter_name p.port, 0)]⟩ := by
  show (addPortRules noFail excl protos p
      (ensure_counter noFail (counter_name p.port) ⟨true, true, true, ri, re, cs⟩).1).1 = _
  rw [ensure_counter_noFail_state, addPortRules_eq, add_rules_seq_noFail_state]

lemma sync_port_step_trace (fails : NftCmd → Bool) (excl protos : List String)
    (p : PortCfg) (acc2 : NftState × List NftCmd) :
    (sync_port_step fails excl protos acc2 p).2 =
      acc2.2 ++ (ensure_counter fails (counter_name p.port) acc2.1).2
        ++ (addPortRules fails excl protos p
              (ensure_counter fails (counter_name p.port) acc2.1).1).2 := rfl

lemma sync_ports_noFail_state (excl protos : List String) (ports : List PortCfg)
    (ri re : List Rule) (cs : List (String × Nat)) (t : List NftCmd) :
    (sync_ports noFail excl protos ports (⟨true, true, true, ri, re, cs⟩, t)).1 =
      ⟨true, true, true,
        ri ++ (ports.flatMap (portRules excl protos)).filter (fun r => r.direction == INGRESS),
        re ++ (ports.flatMap (portRules excl protos)).filter (fun r => r.direction == EGRESS),
        extendCounters ports cs⟩ := by
  induction ports generalizing ri re cs t with
  | nil => simp [sync_ports, extendCounters]
  | cons p ps ih =>
    rw [sync_ports, List.foldl_cons]
    have hpair : sync_port_step noFail excl protos (⟨true, true, true, ri, re, cs⟩, t) p =
        (⟨true, true, true,
            ri ++ (portRules excl protos p).filter (fun r => r.direction == INGRESS),
            re ++ (portRules excl protos p).filter (fun r => r.direction == EGRESS),
            if (cs.lookup (counter_name p.port)).isSome then cs
            else cs ++ [(counter_name p.port, 0)]⟩,
          (sync_port_step noFail excl protos (⟨true, true, true, ri, re, cs⟩, t) p).2) :=
      Prod.ext_iff.mpr ⟨sync_port_step_noFail_fst excl protos p ri re cs t, rfl⟩
    rw [hpair]
    refine Eq.trans (ih _ _ _ _) ?_
    have hext : extendCounters (p :: ps) cs =
        extendCounters ps
          (if (cs.lookup (counter_name p.port)).isSome then cs
           else cs ++ [(counter_name p.port, 0)]) := by
      rw [extendCounters, List.foldl_cons]
      rfl
    rw [← hext]
    simp [List.flatMap_cons, List.filter_append]

lemma map_addRule_filter (l : List Rule) :
    (l.map NftCmd.addRule).filter isAddRule = l.map NftCmd.addRule := by
  refine List.filter_eq_self.mpr ?_
  intro c hc
  obtain ⟨r, _, rfl⟩ := List.mem_map.mp hc
  rfl

lemma sync_ports_trace_filter (fails : NftCmd → Bool) (excl protos : List String)
    (ports : List PortCfg) (acc : NftState × List NftCmd) :
    ((sync_ports fails excl protos ports acc).2).filter isAddRule =
      acc.2.filter isAddRule ++ (ports.flatMap (portRules excl protos)).map NftCmd.addRule := by
  induction ports generalizing acc with
  | nil => simp [sync_ports]
  | cons p ps ih =>
    rw [sync_ports, List.foldl_cons]
    refine Eq.trans (ih (sync_port_step fails excl protos acc p)) ?_
    have htr : ((sync_port_step fails excl protos acc p).2).filter isAddRule =
        acc.2.filter isAddRule ++ (portRules excl protos p).map NftCmd.addRule := by
      rw [sync_port_step_trace]
      rw [List.filter_append, List.filter_append, ensure_counter_trace_filter,
        addPortRules_eq, add_rules_seq_trace]
      simp [map_addRule_filter]
    rw [htr]
    simp [List.flatMap_cons]

lemma flush_ingress_noFail (ri re : List Rule) (cs : List (String × Nat)) :
    (nft_f noFail (.flushChain INGRESS) (⟨true, true, true, ri, re, cs⟩ : NftState)).1 =
      (⟨true, true, true, [], re, cs⟩ : NftState) := by
  simp [nft_f, noFail, applyNft]

lemma flush_egress_noFail (ri re : List Rule) (cs : List (String × Nat)) :
    (nft_f noFail (.flushChain EGRESS) (⟨true, true, true, ri, re, cs⟩ : NftState)).1 =
      (⟨true, true, true, ri, [], cs⟩ : NftState) := by
  simp [nft_f, noFail, applyNft, INGRESS, EGRESS]

/-- The state one successful synchronization run leaves behind: flags set,
each chain holding exactly the generated rules whose direction names it,
counters extended create-if-absent. -/
lemma sync_rules_noFail_state (cfg : Config) (st : NftState) :
    (sync_rules noFail cfg st).1 =
      ⟨true, true, true,
        (allRules cfg).filter (fun r => r.direction == INGRESS),
        (allRules cfg).filter (fun r => r.direction == EGRESS),
        extendCounters cfg.ports st.counters⟩ := by
  show (sync_ports noFail cfg.exclude_ifaces cfg.protocols cfg.ports
      ((nft_f noFail (.flushChain EGRESS)
        (nft_f noFail (.flushChain INGRESS) (ensure_infra noFail st).1).1).1, [])).1 = _
  rw [ensure_infra_noFail_state, flush_ingress_noFail, flush_egress_noFail,
    sync_ports_noFail_state]
  simp [allRules]

lemma extendCounters_lookup (ports : List PortCfg) (cs : List (String × Nat))
    (n : String) (v : Nat) (h : cs.lookup n = some v) :
    (extendCounters ports cs).lookup n = some v := by
  induction ports generalizing cs with
  | nil => exact h
  | cons p ps ih =>
    rw [show extendCounters (p :: ps) cs =
        extendCounters ps
          (if (cs.lookup (counter_name p.port)).isSome then cs
           else cs ++ [(counter_name p.port, 0)]) from by
      rw [extendCounters, List.foldl_cons]; rfl]
    by_cases hp : (cs.lookup (counter_name p.port)).isSome
    · rw [if_pos hp]; exact ih cs h
    · rw [if_neg hp]
      refine ih _ ?_
      rw [List.lookup_append, h]
      rfl

lemma extendCounters_nodup_keys (ports : List PortCfg) (cs : List (String × Nat))
    (h : (cs.map Prod.fst).Nodup) :
    ((extendCounters ports cs).map Prod.fst).Nodup := by
  induction ports generalizing cs with
  | nil => exact h
  | cons p ps ih =>
    rw [show extendCounters (p :: ps) cs =
        extendCounters ps
          (if (cs.lookup (counter_name p.port)).isSome then cs
           else cs ++ [(counter_name p.port, 0)]) from by
      rw [extendCounters, List.foldl_cons]; rfl]
    by_cases hp : (cs.lookup (counter_name p.port)).isSome
    · rw [if_pos hp]; exact ih cs h
    · rw [if_neg hp]
      refine ih _ ?_
      have hnotmem : counter_name p.port ∉ cs.map Prod.fst := by
        intro hmem
        exact hp ((lookup_isSome_iff cs (counter_name p.port)).mpr hmem)
      simp [List.nodup_append, h, hnotmem]

/-! ### C1 — synchronization is idempotent and exactly-once-effective -/

/-- C1: running `sync_rules` twice in a row (all backend commands
succeeding) leaves, as multisets of match tuples, exactly the rule set of a
single run in each chain; one run never resets an existing counter (its
byte value is preserved) and never creates a duplicate counter (key
uniqueness is preserved); `ensure_counter` is a no-op when the counter is
already present. -/
theorem C1_sync_idempotent (cfg : Config) (st : NftState) :
    (((sync_rules noFail cfg ((sync_rules noFail cfg st).1)).1.ingressRules : Multiset Rule)
        = ((sync_rules noFail cfg st).1.ingressRules : Multiset Rule)
      ∧ ((sync_rules noFail cfg ((sync_rules noFail cfg st).1)).1.egressRules : Multiset Rule)
        = ((sync_rules noFail cfg st).1.egressRules : Multiset Rule))
    ∧ (∀ n v, st.counters.lookup n = some v →
        (sync_rules noFail cfg st).1.counters.lookup n = some v)
    ∧ ((st.counters.map Prod.fst).Nodup →
        ((sync_rules noFail cfg st).1.counters.map Prod.fst).Nodup)
    ∧ (∀ (n : String) (st2 : NftState), (st2.counters.lookup n).isSome →
        ensure_counter noFail n st2 = (st2, [])) := by
  refine ⟨⟨?_, ?_⟩, fun n v h => ?_, fun h => ?_, fun n st2 h => ?_⟩
  · rw [sync_rules_noFail_state, sync_rules_noFail_state]
  · rw [sync_rules_noFail_state, sync_rules_noFail_state]
  · rw [sync_rules_noFail_state]
    exact extendCounters_lookup cfg.ports st.counters n v h
  · rw [sync_rules_noFail_state]
    exact extendCounters_nodup_keys cfg.ports st.counters h
  · rw [ensure_counter, if_pos h]

/-- C1 witness: for the one-port example configuration, starting from a
backend already holding an unrelated counter `("a", 7)`, one run preserves
that counter's value and key uniqueness, and a second run produces the same
chain contents as the first. -/
theorem C1_witness :
    (⟨false, false, false, [], [], [("a", 7)]⟩ : NftState).counters.lookup "a" = some 7
      ∧ (sync_rules noFail cfg9000
          (⟨false, false, false, [], [], [("a", 7)]⟩ : NftState)).1.counters.lookup "a" = some 7
      ∧ ((sync_rules noFail cfg9000
          ((sync_rules noFail cfg9000 (⟨false, false, false, [], [], [("a", 7)]⟩ : NftState)).1)).1.ingressRules
            : Multiset Rule)
        = ((sync_rules noFail cfg9000
            (⟨false, false, false, [], [], [("a", 7)]⟩ : NftState)).1.ingressRules : Multiset Rule) := by
  have h := C1_sync_idempotent cfg9000 (⟨false, false, false, [], [], [("a", 7)]⟩ : NftState)
  exact ⟨by decide, h.2.1 "a" 7 (by decide), h.1.1⟩

/-! ### C5 — failed flush/add is ignored, not surfaced -/

/-- C5 as amended: backend failures during synchronization are ignored,
not surfaced: for EVERY failure oracle, the `add rule` commands `sync_rules`
emits are exactly the full generated rule list — a failed flush or add
aborts nothing (and the function returns no error indication; the source
discards every `nft_f` result). -/
theorem C5_amended_failures_ignored (fails : NftCmd → Bool) (cfg : Config) (st : NftState) :
    ((sync_rules fails cfg st).2).filter isAddRule = (allRules cfg).map NftCmd.addRule := by
  show ((ensure_infra fails st).2 ++ [NftCmd.flushChain INGRESS, NftCmd.flushChain EGRESS]
      ++ (sync_ports fails cfg.exclude_ifaces cfg.protocols cfg.ports
            ((nft_f fails (.flushChain EGRESS)
              (nft_f fails (.flushChain INGRESS) (ensure_infra fails st).1).1).1, [])).2).filter
      isAddRule = _
  rw [List.filter_append, List.filter_append, ensure_infra_trace_filter,
    sync_ports_trace_filter]
  simp [allRules, isAddRule]

/-- The failure oracle of the counterexample: exactly the ingress chain
flush exits non-zero. -/
def failsFlushIngress : NftCmd → Bool := fun c => c == NftCmd.flushChain INGRESS

/-- The claimed abort behaviour: once any emitted command fails, no later
command of the run is an `add rule`. -/
def aborts_after_failed_cmd (t : List NftCmd) (fails : NftCmd → Bool) : Prop :=
  ∀ i j, i < j → j < t.length → fails (t.getD i .addTable) = true →
    isAddRule (t.getD j .addTable) = false

/-- C5 counterexample: with the ingress-chain flush failing, `sync_rules`
on the example configuration still emits all four `add rule` commands after
the failed flush — the emission is not aborted (and no failure is
surfaced: the source ignores every `nft -f` exit code). -/
theorem C5_counterexample :
    ¬ aborts_after_failed_cmd ((sync_rules failsFlushIngress cfg9000 nftState0).2)
        failsFlushIngress := by
  intro h
  exact absurd (h 3 6 (by decide) (by decide) (by decide)) (by decide)

/-! ### C4 — exactly one rule per (port, direction, protocol) tuple -/

/-- All match rules present in the backend: ingress chain then egress chain. -/
def rulesOf (st : NftState) : List Rule := st.ingressRules ++ st.egressRules

/-- The `(port, direction, protocol)` match tuple of a rule. -/
def ruleTuple (r : Rule) : Nat × String × String := (r.port, r.direction, r.proto)

@[simp] lemma add_one_rule_direction (e : List String) (d pr : String) (n : Nat) (c : String) :
    (add_one_rule e d pr n c).direction = d := rfl

@[simp] lemma add_one_rule_proto (e : List String) (d pr : String) (n : Nat) (c : String) :
    (add_one_rule e d pr n c).proto = pr := rfl

@[simp] lemma add_one_rule_port (e : List String) (d pr : String) (n : Nat) (c : String) :
    (add_one_rule e d pr n c).port = n := rfl

@[simp] lemma add_one_rule_counterName (e : List String) (d pr : String) (n : Nat) (c : String) :
    (add_one_rule e d pr n c).counterName = c := rfl

/-- The tuples `sync_rules` generates, one per configured port ×
implied direction × configured protocol. -/
def tuplesOf (cfg : Config) : List (Nat × String × String) :=
  cfg.ports.flatMap
    (fun p => (dirsOf p.direction).flatMap
      (fun d => cfg.protocols.map (fun proto => (p.port, d, proto))))

lemma map_ruleTuple_portRules (e protos : List String) (p : PortCfg) :
    (portRules e protos p).map ruleTuple =
      (dirsOf p.direction).flatMap (fun d => protos.map (fun proto => (p.port, d, proto))) := by
  rw [portRules, List.map_flatMap]
  refine congrArg _ (funext fun d => ?_)
  rw [List.map_map]
  rfl

lemma map_ruleTuple_allRules (cfg : Config) :
    (allRules cfg).map ruleTuple = tuplesOf cfg := by
  rw [allRules, List.map_flatMap, tuplesOf]
  exact congrArg _ (funext fun p => map_ruleTuple_portRules _ _ p)

lemma mem_dirsOf_valid {dir d : String}
    (h : dir = "both" ∨ dir = INGRESS ∨ dir = EGRESS) (hd : d ∈ dirsOf dir) :
    d = INGRESS ∨ d = EGRESS := by
  rcases h with h | h | h
  · rw [h] at hd
    rw [show dirsOf "both" = [INGRESS, EGRESS] from rfl] at hd
    rcases List.mem_cons.mp hd with hd2 | hd2
    · exact Or.inl hd2
    · exact Or.inr (List.mem_singleton.mp hd2)
  · rw [h] at hd
    have hne : INGRESS ≠ "both" := by decide
    rw [dirsOf, if_neg hne, List.mem_singleton] at hd
    exact Or.inl hd
  · rw [h] at hd
    have hne : EGRESS ≠ "both" := by decide
    rw [dirsOf, if_neg hne, List.mem_singleton] at hd
    exact Or.inr hd

lemma dirsOf_nodup {dir : String}
    (h : dir = "both" ∨ dir = INGRESS ∨ dir = EGRESS) : (dirsOf dir).Nodup := by
  rcases h with h | h | h <;> rw [h] <;> simp [dirsOf, INGRESS, EGRESS]

lemma mem_inner_tuple {P : Nat} {dir : String} {protos : List String}
    {x : Nat × String × String}
    (hx : x ∈ (dirsOf dir).flatMap (fun d => protos.map (fun proto => (P, d, proto)))) :
    x.1 = P ∧ x.2.1 ∈ dirsOf dir := by
  obtain ⟨d, hd, hx2⟩ := List.mem_flatMap.mp hx
  obtain ⟨proto, _, rfl⟩ := List.mem_map.mp hx2
  exact ⟨rfl, hd⟩

lemma tuplesOf_nodup (cfg : Config)
    (h1 : (cfg.ports.map PortCfg.port).Nodup) (h2 : cfg.protocols.Nodup)
    (h3 : ∀ p ∈ cfg.ports, p.direction = "both" ∨ p.direction = INGRESS ∨ p.direction = EGRESS) :
    (tuplesOf cfg).Nodup := by
  refine List.nodup_flatMap.mpr ⟨fun p hp => ?_, ?_⟩
  · refine List.nodup_flatMap.mpr ⟨fun d _ => ?_, ?_⟩
    · refine h2.map ?_
      intro x y hxy
      simpa using congrArg (fun t => t.2.2) hxy
    · refine (dirsOf_nodup (h3 p hp)).imp ?_
      intro a b hab
      intro x hxa hxb
      obtain ⟨proto, _, rfl⟩ := List.mem_map.mp hxa
      obtain ⟨proto2, _, hx2⟩ := List.mem_map.mp hxb
      exact hab (congrArg (fun t => t.2.1) hx2.symm)
  · have hpw : cfg.ports.Pairwise (fun p q => p.port ≠ q.port) := by
      have := (List.pairwise_map.mp h1)
      exact this
    refine hpw.imp ?_
    intro p q hpq
    intro x hxp hxq
    have h1x := (mem_inner_tuple hxp).1
    have h2x := (mem_inner_tuple hxq).1
    exact hpq (h1x ▸ h2x ▸ rfl)

lemma countP_tuple_eq_count (l : List Rule) (T : Nat × String × String) :
    l.countP (fun r => ruleTuple r == T) = (l.map ruleTuple).countP (fun x => x == T) := by
  rw [List.countP_map]
  rfl

lemma countP_beq_le_one {α : Type} [BEq α] [LawfulBEq α] (l : List α) (h : l.Nodup) (a : α) :
    l.countP (fun x => x == a) ≤ 1 := by
  induction l with
  | nil => simp
  | cons b l ih =>
    obtain ⟨hb, hl⟩ := List.nodup_cons.mp h
    rw [List.countP_cons]
    by_cases hba : b = a
    · have h0 : l.countP (fun x => x == a) = 0 := by
        refine List.countP_eq_zero.mpr ?_
        intro x hx hxa
        exact hb (hba ▸ beq_iff_eq.mp hxa ▸ hx)
      simp [h0, hba]
    · have hfb : (b == a) = false := beq_eq_false_iff_ne.mpr hba
      simp only [hfb]
      simpa using ih hl

lemma countP_beq_eq_one {α : Type} [BEq α] [LawfulBEq α] {l : List α} (h : l.Nodup)
    {a : α} (ha : a ∈ l) : l.countP (fun x => x == a) = 1 := by
  induction l with
  | nil => exact absurd ha (List.not_mem_nil a)
  | cons b l ih =>
    obtain ⟨hb, hl⟩ := List.nodup_cons.mp h
    rw [List.countP_cons]
    by_cases hba : b = a
    · have h0 : l.countP (fun x => x == a) = 0 := by
        refine List.countP_eq_zero.mpr ?_
        intro x hx hxa
        exact hb (hba ▸ beq_iff_eq.mp hxa ▸ hx)
      simp [h0, hba]
    · have hfb : (b == a) = false := beq_eq_false_iff_ne.mpr hba
      rcases List.mem_cons.mp ha with hh | hh
      · exact absurd hh.symm hba
      · simp only [hfb]
        simpa using ih hl hh

lemma allRules_dir_valid (cfg : Config)
    (h3 : ∀ p ∈ cfg.ports, p.direction = "both" ∨ p.direction = INGRESS ∨ p.direction = EGRESS) :
    ∀ r ∈ allRules cfg, r.direction = INGRESS ∨ r.direction = EGRESS := by
  intro r hr
  obtain ⟨p, hp, hr2⟩ := List.mem_flatMap.mp hr
  obtain ⟨d, hd, hr3⟩ := List.mem_flatMap.mp hr2
  obtain ⟨proto, _, rfl⟩ := List.mem_map.mp hr3
  simpa using mem_dirsOf_valid (h3 p hp) hd

lemma countP_rulesOf_eq (cfg : Config) (st : NftState) (T : Nat × String × String)
    (hT : T.2.1 = INGRESS ∨ T.2.1 = EGRESS) :
    (rulesOf (sync_rules noFail cfg st).1).countP (fun r => ruleTuple r == T) =
      (allRules cfg).countP (fun r => ruleTuple r == T) := by
  rw [rulesOf, sync_rules_noFail_state]
  rw [show ((⟨true, true, true,
      (allRules cfg).filter (fun r => r.direction == INGRESS),
      (allRules cfg).filter (fun r => r.direction == EGRESS),
      extendCounters cfg.ports st.counters⟩ : NftState).ingressRules
        ++ (⟨true, true, true,
      (allRules cfg).filter (fun r => r.direction == INGRESS),
      (allRules cfg).filter (fun r => r.direction == EGRESS),
      extendCounters cfg.ports st.counters⟩ : NftState).egressRules)
    = ((allRules cfg).filter (fun r => r.direction == INGRESS)
        ++ (allRules cfg).filter (fun r => r.direction == EGRESS)) from rfl]
  rw [List.countP_append, List.countP_filter, List.countP_filter]
  have hpred : ∀ r : Rule, (ruleTuple r == T) = true → r.direction = T.2.1 := by
    intro r hr
    have := (beq_iff_eq.mp hr)
    exact congrArg (fun t => t.2.1) this
  rcases hT with hT | hT
  · have hA : (allRules cfg).countP
        (fun r => (ruleTuple r == T) && (r.direction == INGRESS)) =
        (allRules cfg).countP (fun r => ruleTuple r == T) := by
      refine List.countP_congr ?_
      intro r _
      constructor
      · intro hr
        exact (Bool.and_eq_true _ _ |>.mp hr).1
      · intro hr
        refine Bool.and_eq_true _ _ |>.mpr ⟨hr, ?_⟩
        rw [hpred r hr, hT]
        exact beq_self_eq_true _
    have hB : (allRules cfg).countP
        (fun r => (ruleTuple r == T) && (r.direction == EGRESS)) = 0 := by
      refine List.countP_eq_zero.mpr ?_
      intro r _ hr
      obtain ⟨hrt, hre⟩ := Bool.and_eq_true _ _ |>.mp hr
      have h1 := hpred r hrt
      rw [hT] at h1
      rw [h1] at hre
      exact absurd (beq_iff_eq.mp hre) (by decide)
    rw [hA, hB]
    omega
  · have hA : (allRules cfg).countP
        (fun r => (ruleTuple r == T) && (r.direction == INGRESS)) = 0 := by
      refine List.countP_eq_zero.mpr ?_
      intro r _ hr
      obtain ⟨hrt, hre⟩ := Bool.and_eq_true _ _ |>.mp hr
      have h1 := hpred r hrt
      rw [hT] at h1
      rw [h1] at hre
      exact absurd (beq_iff_eq.mp hre) (by decide)
    have hB : (allRules cfg).countP
        (fun r => (ruleTuple r == T) && (r.direction == EGRESS)) =
        (allRules cfg).countP (fun r => ruleTuple r == T) := by
      refine List.countP_congr ?_
      intro r _
      constructor
      · intro hr
        exact (Bool.and_eq_true _ _ |>.mp hr).1
      · intro hr
        refine Bool.and_eq_true _ _ |>.mpr ⟨hr, ?_⟩
        rw [hpred r hr, hT]
        exact beq_self_eq_true _
    rw [hA, hB]
    omega

lemma sum_map_const {α : Type} (l : List α) (k : Nat) :
    (l.map (fun _ => k)).sum = l.length * k := by
  induction l with
  | nil => simp
  | cons a l ih => simp [ih, Nat.succ_mul, Nat.add_comm]

lemma portRules_length (e protos : List String) (p : PortCfg) :
    (portRules e protos p).length = (dirsOf p.direction).length * protos.length := by
  rw [portRules, List.length_flatMap]
  have h : (List.length ∘ fun d =>
      protos.map (fun proto => add_one_rule e d proto p.port (counter_name p.port)))
    = (fun _ => protos.length) := funext fun d => by simp
  rw [h]
  exact sum_map_const _ _

lemma length_rulesOf (cfg : Config) (st : NftState)
    (h3 : ∀ p ∈ cfg.ports, p.direction = "both" ∨ p.direction = INGRESS ∨ p.direction = EGRESS) :
    (rulesOf (sync_rules noFail cfg st).1).length =
      (cfg.ports.map (fun p => (dirsOf p.direction).length * cfg.protocols.length)).sum := by
  rw [rulesOf, sync_rules_noFail_state]
  rw [show ((⟨true, true, true,
      (allRules cfg).filter (fun r => r.direction == INGRESS),
      (allRules cfg).filter (fun r => r.direction == EGRESS),
      extendCounters cfg.ports st.counters⟩ : NftState).ingressRules
        ++ (⟨true, true, true,
      (allRules cfg).filter (fun r => r.direction == INGRESS),
      (allRules cfg).filter (fun r => r.direction == EGRESS),
      extendCounters cfg.ports st.counters⟩ : NftState).egressRules)
    = ((allRules cfg).filter (fun r => r.direction == INGRESS)
        ++ (allRules cfg).filter (fun r => r.direction == EGRESS)) from rfl]
  have hE : (allRules cfg).filter (fun r => r.direction == EGRESS) =
      (allRules cfg).filter (fun r => !(r.direction == INGRESS)) := by
    refine List.filter_congr ?_
    intro r hr
    rcases allRules_dir_valid cfg h3 r hr with h | h <;>
      simp [h, INGRESS, EGRESS]
  rw [hE]
  have hperm := List.filter_append_perm (fun r => r.direction == INGRESS) (allRules cfg)
  rw [hperm.length_eq]
  rw [allRules, List.length_flatMap]
  have h : (List.length ∘ portRules cfg.exclude_ifaces cfg.protocols)
      = (fun p => (dirsOf p.direction).length * cfg.protocols.length) :=
    funext fun p => portRules_length _ _ p
  rw [h]

lemma rulesOf_mem_shape (cfg : Config) (st : NftState) :
    ∀ r ∈ rulesOf (sync_rules noFail cfg st).1,
      r.counterName = counter_name r.port ∧ r.port ∈ cfg.ports.map PortCfg.port := by
  intro r hr
  rw [rulesOf, sync_rules_noFail_state] at hr
  have hr2 : r ∈ allRules cfg := by
    rcases List.mem_append.mp hr with h | h <;> exact List.mem_of_mem_filter h
  obtain ⟨p, hp, hr3⟩ := List.mem_flatMap.mp hr2
  obtain ⟨d, _, hr4⟩ := List.mem_flatMap.mp hr3
  obtain ⟨proto, _, rfl⟩ := List.mem_map.mp hr4
  exact ⟨rfl, List.mem_map.mpr ⟨p, hp, rfl⟩⟩

lemma rulesOf_dir_valid (cfg : Config) (st : NftState)
    (h3 : ∀ p ∈ cfg.ports, p.direction = "both" ∨ p.direction = INGRESS ∨ p.direction = EGRESS) :
    ∀ r ∈ rulesOf (sync_rules noFail cfg st).1,
      r.direction = INGRESS ∨ r.direction = EGRESS := by
  intro r hr
  rw [rulesOf, sync_rules_noFail_state] at hr
  have hr2 : r ∈ allRules cfg := by
    rcases List.mem_append.mp hr with h | h <;> exact List.mem_of_mem_filter h
  exact allRules_dir_valid cfg h3 r hr2

/-- C4: under the data-model invariants (distinct configured ports, a
duplicate-free protocol list, valid direction settings), synchronization
leaves exactly one match rule per configured port × implied direction ×
protocol — never a duplicate for any tuple — the total rule count is the
sum over ports of `|implied directions| * |protocols|` (so 4 for one port
with direction `both` and protocols tcp+udp), and every rule references the
counter derived from its own port. -/
theorem C4_one_rule_per_tuple (cfg : Config) (st : NftState)
    (h1 : (cfg.ports.map PortCfg.port).Nodup) (h2 : cfg.protocols.Nodup)
    (h3 : ∀ p ∈ cfg.ports, p.direction = "both" ∨ p.direction = INGRESS ∨ p.direction = EGRESS) :
    (∀ p ∈ cfg.ports, ∀ d ∈ dirsOf p.direction, ∀ proto ∈ cfg.protocols,
        (rulesOf (sync_rules noFail cfg st).1).countP
          (fun r => ruleTuple r == (p.port, d, proto)) = 1)
      ∧ (∀ (q : Nat) (d proto : String),
          (rulesOf (sync_rules noFail cfg st).1).countP
            (fun r => ruleTuple r == (q, d, proto)) ≤ 1)
      ∧ (rulesOf (sync_rules noFail cfg st).1).length =
          (cfg.ports.map (fun p => (dirsOf p.direction).length * cfg.protocols.length)).sum
      ∧ (∀ r ∈ rulesOf (sync_rules noFail cfg st).1,
          r.counterName = counter_name r.port ∧ r.port ∈ cfg.ports.map PortCfg.port) := by
  have hnodup := tuplesOf_nodup cfg h1 h2 h3
  refine ⟨?_, ?_, length_rulesOf cfg st h3, rulesOf_mem_shape cfg st⟩
  · intro p hp d hd proto hproto
    have hT : ((p.port, d, proto) : Nat × String × String).2.1 = INGRESS
        ∨ ((p.port, d, proto) : Nat × String × String).2.1 = EGRESS :=
      mem_dirsOf_valid (h3 p hp) hd
    rw [countP_rulesOf_eq cfg st _ hT, countP_tuple_eq_count, map_ruleTuple_allRules]
    refine countP_beq_eq_one hnodup ?_
    refine List.mem_flatMap.mpr ⟨p, hp, ?_⟩
    refine List.mem_flatMap.mpr ⟨d, hd, ?_⟩
    exact List.mem_map.mpr ⟨proto, hproto, rfl⟩
  · intro q d proto
    by_cases hT : ((q, d, proto) : Nat × String × String).2.1 = INGRESS
        ∨ ((q, d, proto) : Nat × String × String).2.1 = EGRESS
    · rw [countP_rulesOf_eq cfg st _ hT, countP_tuple_eq_count, map_ruleTuple_allRules]
      exact countP_beq_le_one _ hnodup _
    · have h0 : (rulesOf (sync_rules noFail cfg st).1).countP
          (fun r => ruleTuple r == (q, d, proto)) = 0 := by
        refine List.countP_eq_zero.mpr ?_
        intro r hr hbeq
        have hdir := (rulesOf_dir_valid cfg st h3 r hr)
        have := beq_iff_eq.mp hbeq
        have hrd : r.direction = d := congrArg (fun t => t.2.1) this
        rw [hrd] at hdir
        exact hT hdir
      omega

/-- C4 witness: for the spec's end-to-end configuration (one port 9000,
direction `both`, protocols tcp+udp) synchronization of a fresh backend
leaves exactly 4 match rules, with exactly one for the
`(9000, ingress, tcp)` tuple. -/
theorem C4_witness :
    (rulesOf (sync_rules noFail cfg9000 nftState0).1).length = 4
      ∧ (rulesOf (sync_rules noFail cfg9000 nftState0).1).countP
          (fun r => ruleTuple r == (9000, INGRESS, "tcp")) = 1 := by
  have h := C4_one_rule_per_tuple cfg9000 nftState0 (by decide) (by decide) (by decide)
  refine ⟨?_, ?_⟩
  · rw [h.2.2.1]
    rfl
  · exact h.1 ⟨9000, 1, "both"⟩ (by decide) INGRESS (by decide) "tcp" (by decide)

end PortQuota
